import Mathlib

/-!
Verification of the buying-intent lead-scoring pipeline.

Shallow embedding of the hybrid scoring core of the repository:
the rule layer from leads/utils.py (calculate_rule_score), and the
classifier parsing, deduplication and scoring pipeline from
leads/views.py (LeadViewSet). Python strings are embedded as Lean
strings; Python dictionaries whose keys may be absent are embedded as
structures with Option-valued fields; database rows are structures and
the lead table is a list of rows; the classifier call is an oracle
value describing the outcome of the external request.
-/

/-- Python substring prefix test on character lists, used to embed the
Python `in` operator for strings. -/
def prefixOfB : List Char → List Char → Bool
  | [], _ => true
  | _ :: _, [] => false
  | c :: cs, d :: ds => c == d && prefixOfB cs ds

/-- Python contiguous-substring test on character lists. -/
def infixOfB (a b : List Char) : Bool :=
  match b with
  | [] => a.isEmpty
  | _ :: bs => prefixOfB a b || infixOfB a bs

/-- Embedding of the Python expression `a in b` for strings a, b. -/
def pyIn (a b : String) : Bool := infixOfB a.data b.data

/-- Embedding of Python `str.lower()`. -/
def pyLower (s : String) : String := String.mk (s.data.map Char.toLower)

/-- Embedding of Python `str.strip()`: drop whitespace from both ends. -/
def pyStrip (s : String) : String :=
  String.mk (((s.data.dropWhile Char.isWhitespace).reverse.dropWhile
      Char.isWhitespace).reverse)

/-- A lead dictionary as passed to calculate_rule_score: each key may be
absent (none) or present with a string value, mirroring dict.get. -/
structure LeadD where
  name : Option String
  role : Option String
  company : Option String
  industry : Option String
  location : Option String
  linkedin_bio : Option String
deriving DecidableEq

/-- An offer dictionary as passed to calculate_rule_score. -/
structure OfferD where
  ideal_use_cases : Option (List String)
  value_props : Option (List String)
deriving DecidableEq

/-- Decision-maker role keywords, leads/utils.py line 62. -/
def decision_makers : List String :=
  ["ceo", "cto", "cfo", "vp", "head", "director", "founder", "owner", "president"]

/-- Influencer role keywords, leads/utils.py line 66. -/
def influencers : List String :=
  ["manager", "lead", "architect", "senior", "principal"]

/-- Criterion 1 of calculate_rule_score (leads/utils.py lines 68-77):
role relevance, 0, 10 or 20 points. -/
def roleCriterion (lead : LeadD) : Int × List String :=
  let role := pyLower (lead.role.getD "")
  if decision_makers.any (fun dm => pyIn dm role) then
    (20, ["Decision maker role (+20)"])
  else if influencers.any (fun inf => pyIn inf role) then
    (10, ["Influencer role (+10)"])
  else
    (0, [])

/-- Criterion 2 of calculate_rule_score (leads/utils.py lines 85-98):
industry match against the offer ideal use cases, 0, 10 or 20 points. -/
def industryCriterion (lead : LeadD) (offer : OfferD) : Int × List String :=
  let industry := pyLower (lead.industry.getD "")
  let ideal_use_cases := offer.ideal_use_cases.getD []
  if ideal_use_cases.any (fun use_case => industry == pyLower use_case) then
    (20, ["Exact ICP match (+20)"])
  else if ideal_use_cases.any
      (fun icp => pyIn (pyLower icp) industry || pyIn industry (pyLower icp)) then
    (10, ["Adjacent industry (+10)"])
  else
    (0, [])

/-- Truthiness of `lead.get(field) and str(lead.get(field)).strip()` for
one required field: the key is present, non-empty, and non-blank. -/
def fieldTruthy (o : Option String) : Bool :=
  match o with
  | none => false
  | some s => s != "" && pyStrip s != ""

/-- Criterion 3 of calculate_rule_score (leads/utils.py lines 107-113):
data completeness over the six required fields, 0 or 10 points. -/
def completenessCriterion (lead : LeadD) : Int × List String :=
  if [lead.name, lead.role, lead.company, lead.industry, lead.location,
      lead.linkedin_bio].all fieldTruthy then
    (10, ["Complete profile (+10)"])
  else
    (0, [])

/-- Embedding of calculate_rule_score (leads/utils.py lines 54-116): the
three criteria are evaluated in fixed order, accumulating the score and
the reason strings. -/
def calculate_rule_score (lead : LeadD) (offer : OfferD) : Int × List String :=
  let r := roleCriterion lead
  let i := industryCriterion lead offer
  let c := completenessCriterion lead
  (r.1 + i.1 + c.1, r.2 ++ i.2 ++ c.2)

/-- Outcome of the external classifier call inside _get_ai_intent_score:
a successful response body, a rate-limit exception, or any other
exception, each carrying its message. -/
inductive ClfOutcome where
  | ok (content : String)
  | rateLimited (msg : String)
  | failed (msg : String)
deriving DecidableEq

/-- The intent_map lookup of _get_ai_intent_score (leads/views.py lines
168-175): dictionary get with default 10. -/
def intent_map (intent : String) : Int :=
  if intent == "High" then 50
  else if intent == "Medium" then 30
  else if intent == "Low" then 10
  else 10

/-- Embedding of Python `s.split(sep, 1)` for the one-character
separator bar: the part before the first bar and the rest after it. -/
def splitFirstBar (s : String) : String × String :=
  (String.mk (s.data.takeWhile (fun c => c != '|')),
   String.mk ((s.data.dropWhile (fun c => c != '|')).drop 1))

/-- Embedding of _get_ai_intent_score (leads/views.py lines 98-180) as a
function of the classifier outcome. The whole body is wrapped in a
try/except Exception handler, and RateLimitError is a subclass of
Exception, so a rate-limited call is caught here like any other error
and yields the generic diagnostic triple; the function itself never
raises. -/
def get_ai_intent_score (out : ClfOutcome) : Int × String × String :=
  match out with
  | ClfOutcome.ok content =>
      let result := pyStrip content
      if !(pyIn "|" result) then
        (10, "Low", "AI response format error")
      else
        let parts := splitFirstBar result
        let intent := pyStrip parts.1
        (intent_map intent, intent, pyStrip parts.2)
  | ClfOutcome.rateLimited msg => (10, "Low", "AI scoring error: " ++ msg)
  | ClfOutcome.failed msg => (10, "Low", "AI scoring error: " ++ msg)

/-- A persisted Lead row (leads/models.py): profile fields, the
nullable scoring fields, and the auto-assigned primary key, which
orders rows by creation (the spec treats created_at and the sequence id
as equivalent orderings). -/
structure LeadRec where
  id : Nat
  name : String
  role : String
  company : String
  industry : String
  location : String
  linkedin_bio : String
  intent : Option String := none
  score : Option Int := none
  reasoning : Option String := none
deriving DecidableEq

/-- A persisted Offer row (leads/models.py). -/
structure OfferRec where
  name : String
  value_props : List String
  ideal_use_cases : List String
deriving DecidableEq

/-- The lead_dict built in LeadViewSet.score (leads/views.py lines
225-232) from a Lead row: every key is present. -/
def lead_dict (lead : LeadRec) : LeadD :=
  { role := some lead.role, industry := some lead.industry,
    name := some lead.name, company := some lead.company,
    location := some lead.location, linkedin_bio := some lead.linkedin_bio }

/-- The offer_dict built in LeadViewSet.score (leads/views.py lines
233-236) from an Offer row. -/
def offer_dict (offer : OfferRec) : OfferD :=
  { ideal_use_cases := some offer.ideal_use_cases,
    value_props := some offer.value_props }

/-- STEP 3 of LeadViewSet.score (leads/views.py line 250): combined
final score, clamped at 100. -/
def final_score (rule_score ai_score : Int) : Int :=
  min (rule_score + ai_score) 100

/-- Final intent classification of LeadViewSet.score (leads/views.py
lines 252-258). -/
def final_intent (fs : Int) : String :=
  if fs ≥ 70 then "High"
  else if fs ≥ 40 then "Medium"
  else "Low"

/-- The combined_reasoning string of LeadViewSet.score (leads/views.py
line 261). -/
def combined_reasoning (rule_reasons : List String) (ai_reasoning : String) :
    String :=
  "[Rule: " ++ String.intercalate ", " rule_reasons ++ "] [AI: " ++
    ai_reasoning ++ "]"

/-- The normal (non-fallback) path of the per-lead loop body of
LeadViewSet.score (leads/views.py lines 222-267), given the already
obtained AI triple: combine the rule score with the AI score, classify,
and persist score, intent and reasoning on the row. -/
def score_lead_normal (offer : OfferRec) (ai : Int × String × String)
    (lead : LeadRec) : LeadRec :=
  let rr := calculate_rule_score (lead_dict lead) (offer_dict offer)
  let fs := final_score rr.1 ai.1
  { lead with
      score := some fs
      intent := some (final_intent fs)
      reasoning := some (combined_reasoning rr.2 ai.2.2) }

/-- STEP 2 of LeadViewSet.score (leads/views.py lines 239-245): call
_get_ai_intent_score when an API key is configured, otherwise use the
fixed no-key triple. -/
def ai_triple (hasKey : Bool) (clf : LeadRec → ClfOutcome) (lead : LeadRec) :
    Int × String × String :=
  if hasKey then get_ai_intent_score (clf lead)
  else (10, "Low", "No AI API key configured")

/-- The full per-lead loop body of LeadViewSet.score on its non-raising
path. Because get_ai_intent_score never raises, this is the body that
actually runs for every candidate lead, whatever the classifier
outcome. -/
def score_lead (hasKey : Bool) (clf : LeadRec → ClfOutcome)
    (offer : OfferRec) (lead : LeadRec) : LeadRec :=
  score_lead_normal offer (ai_triple hasKey clf lead) lead

/-- Embedding of the RateLimitError handler of LeadViewSet.score
(leads/views.py lines 282-300): rule-only final score min(rule_score *
2, 100) with the rule-only reasoning tag. In the source this handler is
reachable only if RateLimitError escapes the loop body, which never
happens because _get_ai_intent_score catches every Exception. -/
def rate_limit_fallback (offer : OfferRec) (lead : LeadRec) : LeadRec :=
  let rr := calculate_rule_score (lead_dict lead) (offer_dict offer)
  let fs := min (rr.1 * 2) 100
  { lead with
      score := some fs
      intent := some (final_intent fs)
      reasoning := some ("[Rule-based only - AI rate limited] " ++
        String.intercalate ", " rr.2) }

/-- Keys are compared exactly and case-sensitively: the identity key of
a lead row is the pair (company, name). -/
def sameKey (m l : LeadRec) : Bool :=
  m.company == l.company && m.name == l.name

/-- The Max(id) annotation of LeadViewSet._get_unique_leads
(leads/views.py lines 42-44): the largest id among the rows of the base
query set sharing the identity key of l (0 when the group is empty,
which cannot happen for a row of the base set). -/
def maxIdFor (base : List LeadRec) (l : LeadRec) : Nat :=
  ((base.filter (fun m => sameKey m l)).map LeadRec.id).foldl max 0

/-- The base query set of LeadViewSet._get_unique_leads (leads/views.py
lines 37-39): all rows, or only the scored rows when scored_only. -/
def base_leads (db : List LeadRec) (scored_only : Bool) : List LeadRec :=
  if scored_only then db.filter (fun l => l.score.isSome) else db

/-- Embedding of LeadViewSet._get_unique_leads (leads/views.py lines
32-46): the scored_only filter is applied first, then a row is kept
when its id is one of the per-group maximum ids. -/
def get_unique_leads (db : List LeadRec) (scored_only : Bool) : List LeadRec :=
  let base := base_leads db scored_only
  base.filter (fun l => base.any (fun m => l.id == maxIdFor base m))

/-- The candidate set of LeadViewSet.score (leads/views.py line 211):
unique leads with score unset, computed once from the snapshot. -/
def run_candidates (db : List LeadRec) : List LeadRec :=
  (get_unique_leads db false).filter (fun l => l.score.isNone)

/-- The candidates whose loop body completes without an unexpected
exception; fails is the oracle saying whether processing a given
candidate raises (the except-Exception-continue branch, leads/views.py
lines 302-305): a failing candidate is skipped and not persisted. -/
def run_ok (db : List LeadRec) (fails : LeadRec → Bool) : List LeadRec :=
  (run_candidates db).filter (fun l => !(fails l))

/-- Per-row persistence effect of one pipeline run: a row is rewritten
by lead.save() exactly when it is a successfully processed candidate
(matched by primary key), and is untouched otherwise. -/
def run_update (db : List LeadRec) (offer : OfferRec) (hasKey : Bool)
    (clf : LeadRec → ClfOutcome) (fails : LeadRec → Bool) (l : LeadRec) :
    LeadRec :=
  if (run_ok db fails).any (fun c => c.id == l.id) then
    score_lead hasKey clf offer l
  else l

/-- Embedding of the scoring pipeline LeadViewSet.score (leads/views.py
lines 183-320) over a database snapshot, given an existing offer: the
updated database and total_scored, the length of the results list. -/
def score_run (db : List LeadRec) (offer : OfferRec) (hasKey : Bool)
    (clf : LeadRec → ClfOutcome) (fails : LeadRec → Bool) :
    List LeadRec × Nat :=
  (db.map (run_update db offer hasKey clf fails), (run_ok db fails).length)

/-- A completely filled lead dictionary used as concrete input. -/
def wLeadD : LeadD :=
  { name := some "Jane Roe"
    role := some "CEO"
    company := some "Acme"
    industry := some "B2B SaaS"
    location := some "NY"
    linkedin_bio := some "Ten years in SaaS" }

/-- A concrete offer dictionary used as concrete input. -/
def wOfferD : OfferD :=
  { ideal_use_cases := some ["B2B SaaS", "Enterprise"]
    value_props := some ["automation"] }

/-- A concrete unscored lead row used as concrete input. -/
def wLeadRec : LeadRec :=
  { id := 1
    name := "Jane Roe"
    role := "CEO"
    company := "Acme"
    industry := "B2B SaaS"
    location := "NY"
    linkedin_bio := "Ten years in SaaS" }

/-- A concrete offer row used as concrete input. -/
def wOfferRec : OfferRec :=
  { name := "Outreach AI", value_props := ["automation"],
    ideal_use_cases := ["B2B SaaS"] }

/-- A classifier oracle that reports a rate-limit (quota) failure on
every call. -/
def rlClf : LeadRec → ClfOutcome :=
  fun _ => ClfOutcome.rateLimited "Rate limit reached"

/-- Duplicate pair: same (company, name) identity, created in this
order, both unscored. -/
def dupA : LeadRec := wLeadRec

/-- The later duplicate of dupA. -/
def dupB : LeadRec := { wLeadRec with id := 2 }

/-- Scored version of dupA. -/
def dupAS : LeadRec :=
  { dupA with
      score := some 80
      intent := some "High"
      reasoning := some "r1" }

/-- Scored version of dupB. -/
def dupBS : LeadRec :=
  { dupB with
      score := some 90
      intent := some "High"
      reasoning := some "r2" }

/-- Lead whose company differs from caseD only in letter case. -/
def caseC : LeadRec := { wLeadRec with company := "Acme Inc" }

/-- Lead whose company differs from caseC only in letter case. -/
def caseD : LeadRec := { wLeadRec with id := 2, company := "ACME INC" }

/-- First lead of the failure-isolation scenario, distinct identity. -/
def w9A : LeadRec := wLeadRec

/-- Second lead of the failure-isolation scenario, distinct identity. -/
def w9B : LeadRec := { wLeadRec with id := 2, name := "Bo Li", company := "Beta" }

/-- A classifier oracle that always answers with a well-formed High
response. -/
def okClf : LeadRec → ClfOutcome := fun _ => ClfOutcome.ok "High|Strong fit"

/-- A failure oracle under which exactly the lead with id 1 raises an
unexpected exception while being processed. -/
def failsId1 : LeadRec → Bool := fun l => l.id == 1

theorem roleCriterion_fst (lead : LeadD) :
    (roleCriterion lead).1 = 0 ∨ (roleCriterion lead).1 = 10 ∨
      (roleCriterion lead).1 = 20 := by
  unfold roleCriterion
  dsimp only
  split
  · exact Or.inr (Or.inr rfl)
  · split
    · exact Or.inr (Or.inl rfl)
    · exact Or.inl rfl

theorem industryCriterion_fst (lead : LeadD) (offer : OfferD) :
    (industryCriterion lead offer).1 = 0 ∨ (industryCriterion lead offer).1 = 10 ∨
      (industryCriterion lead offer).1 = 20 := by
  unfold industryCriterion
  dsimp only
  split
  · exact Or.inr (Or.inr rfl)
  · split
    · exact Or.inr (Or.inl rfl)
    · exact Or.inl rfl

theorem completenessCriterion_fst (lead : LeadD) :
    (completenessCriterion lead).1 = 0 ∨ (completenessCriterion lead).1 = 10 := by
  unfold completenessCriterion
  split
  · exact Or.inr rfl
  · exact Or.inl rfl

theorem calc_rule_cases (lead : LeadD) (offer : OfferD) :
    (calculate_rule_score lead offer).1 = 0 ∨
    (calculate_rule_score lead offer).1 = 10 ∨
    (calculate_rule_score lead offer).1 = 20 ∨
    (calculate_rule_score lead offer).1 = 30 ∨
    (calculate_rule_score lead offer).1 = 40 ∨
    (calculate_rule_score lead offer).1 = 50 := by
  have h1 := roleCriterion_fst lead
  have h2 := industryCriterion_fst lead offer
  have h3 := completenessCriterion_fst lead
  have hs : (calculate_rule_score lead offer).1 =
      (roleCriterion lead).1 + (industryCriterion lead offer).1 +
        (completenessCriterion lead).1 := rfl
  rw [hs]
  omega

theorem calc_rule_bounds (lead : LeadD) (offer : OfferD) :
    0 ≤ (calculate_rule_score lead offer).1 ∧
      (calculate_rule_score lead offer).1 ≤ 50 := by
  rcases calc_rule_cases lead offer with h | h | h | h | h | h <;> omega

/-- Claim C6: for every lead dictionary and offer dictionary, including
ones with missing or empty fields, calculate_rule_score is a total
function (the embedding is a plain Lean function, so it performs no I/O
and raises no exception) and its returned score is always an element of
the set 0, 10, 20, 30, 40, 50. -/
theorem claim_C6_rule_score_total (lead : LeadD) (offer : OfferD) :
    (calculate_rule_score lead offer).1 = 0 ∨
    (calculate_rule_score lead offer).1 = 10 ∨
    (calculate_rule_score lead offer).1 = 20 ∨
    (calculate_rule_score lead offer).1 = 30 ∨
    (calculate_rule_score lead offer).1 = 40 ∨
    (calculate_rule_score lead offer).1 = 50 :=
  calc_rule_cases lead offer

/-- Claim C2: on the normal (non-fallback) path, for every lead and
offer row and every AI triple whose score lies in 0..50, the persisted
final score equals min(rule_score + ai_score, 100), and that value is
never above 100 and never negative. -/
theorem claim_C2_final_score_combination (offer : OfferRec)
    (ai : Int × String × String) (lead : LeadRec)
    (h0 : 0 ≤ ai.1) (h50 : ai.1 ≤ 50) :
    (score_lead_normal offer ai lead).score =
      some (min ((calculate_rule_score (lead_dict lead) (offer_dict offer)).1 +
        ai.1) 100) ∧
    ∀ v, (score_lead_normal offer ai lead).score = some v → 0 ≤ v ∧ v ≤ 100 := by
  have hb := calc_rule_bounds (lead_dict lead) (offer_dict offer)
  have hsc : (score_lead_normal offer ai lead).score =
      some (min ((calculate_rule_score (lead_dict lead) (offer_dict offer)).1 +
        ai.1) 100) := rfl
  refine ⟨hsc, ?_⟩
  intro v hv
  rw [hsc] at hv
  have hv' : v = min ((calculate_rule_score (lead_dict lead) (offer_dict offer)).1 +
      ai.1) 100 := (Option.some.inj hv).symm
  rw [hv']
  constructor
  · exact le_min (add_nonneg hb.1 h0) (by norm_num)
  · exact min_le_right _ _

/-- Witness for claim C2 at a concrete lead, offer and AI triple. -/
theorem claim_C2_witness :
    (score_lead_normal wOfferRec (50, "High", "fit") wLeadRec).score =
      some (min ((calculate_rule_score (lead_dict wLeadRec)
        (offer_dict wOfferRec)).1 + 50) 100) ∧
    ∀ v, (score_lead_normal wOfferRec (50, "High", "fit") wLeadRec).score =
      some v → 0 ≤ v ∧ v ≤ 100 :=
  claim_C2_final_score_combination wOfferRec (50, "High", "fit") wLeadRec
    (by decide) (by decide)

theorem final_intent_spec (fs : Int) :
    (final_intent fs = "High" ↔ 70 ≤ fs) ∧
    (final_intent fs = "Medium" ↔ 40 ≤ fs ∧ fs < 70) ∧
    (final_intent fs = "Low" ↔ fs < 40) := by
  unfold final_intent
  by_cases h1 : fs ≥ 70
  · rw [if_pos h1]
    exact ⟨⟨fun _ => h1, fun _ => rfl⟩,
      ⟨fun h => absurd h (by decide), fun h => absurd h.2 (by omega)⟩,
      ⟨fun h => absurd h (by decide), fun h => absurd h (by omega)⟩⟩
  · rw [if_neg h1]
    by_cases h2 : fs ≥ 40
    · rw [if_pos h2]
      exact ⟨⟨fun h => absurd h (by decide), fun h => absurd h (by omega)⟩,
        ⟨fun _ => ⟨h2, by omega⟩, fun _ => rfl⟩,
        ⟨fun h => absurd h (by decide), fun h => absurd h (by omega)⟩⟩
    · rw [if_neg h2]
      exact ⟨⟨fun h => absurd h (by decide), fun h => absurd h (by omega)⟩,
        ⟨fun h => absurd h (by decide), fun h => absurd h.1 (by omega)⟩,
        ⟨fun _ => by omega, fun _ => rfl⟩⟩

/-- Claim C3: the final intent label is High when the final score is at
least 70, Medium when it is at least 40, and Low otherwise, with exact
boundaries 70, 69, 40, 39, 0; the normal scoring path persists exactly
this label for the combined score. -/
theorem claim_C3_intent_thresholds :
    (∀ fs : Int, (final_intent fs = "High" ↔ 70 ≤ fs) ∧
        (final_intent fs = "Medium" ↔ 40 ≤ fs ∧ fs < 70) ∧
        (final_intent fs = "Low" ↔ fs < 40)) ∧
    final_intent 70 = "High" ∧ final_intent 69 = "Medium" ∧
    final_intent 40 = "Medium" ∧ final_intent 39 = "Low" ∧
    final_intent 0 = "Low" ∧
    ∀ (offer : OfferRec) (ai : Int × String × String) (lead : LeadRec),
      (score_lead_normal offer ai lead).intent =
        some (final_intent (final_score
          (calculate_rule_score (lead_dict lead) (offer_dict offer)).1 ai.1)) :=
  ⟨final_intent_spec, by decide, by decide, by decide, by decide, by decide,
    fun _ _ _ => rfl⟩

theorem prefixOfB_nil (l : List Char) : prefixOfB [] l = true := rfl

theorem infixOfB_nil_left (l : List Char) : infixOfB [] l = true := by
  induction l with
  | nil => rfl
  | cons c cs ih =>
      show (prefixOfB [] (c :: cs) || infixOfB [] cs) = true
      rw [prefixOfB_nil, ih]
      rfl

theorem infixOfB_singleton (c : Char) (l : List Char) :
    infixOfB [c] l = true ↔ c ∈ l := by
  induction l with
  | nil =>
      show [c].isEmpty = true ↔ c ∈ ([] : List Char)
      simp
  | cons d ds ih =>
      show (prefixOfB [c] (d :: ds) || infixOfB [c] ds) = true ↔ _
      have hp : prefixOfB [c] (d :: ds) = (c == d) := by
        show (c == d && prefixOfB [] ds) = (c == d)
        rw [prefixOfB_nil, Bool.and_true]
      rw [hp, Bool.or_eq_true, ih]
      constructor
      · intro h
        rcases h with h | h
        · rw [beq_iff_eq.mp h]
          exact List.mem_cons_self d ds
        · exact List.mem_cons_of_mem d h
      · intro h
        rcases List.mem_cons.mp h with h | h
        · exact Or.inl (beq_iff_eq.mpr h)
        · exact Or.inr h

theorem mem_of_mem_pyStrip (s : String) (c : Char) (h : c ∈ (pyStrip s).data) :
    c ∈ s.data := by
  have h1 : c ∈ ((s.data.dropWhile Char.isWhitespace).reverse.dropWhile
      Char.isWhitespace).reverse := h
  rw [List.mem_reverse] at h1
  have h2 := (List.dropWhile_sublist _).mem h1
  rw [List.mem_reverse] at h2
  exact (List.dropWhile_sublist _).mem h2

theorem pyIn_bar_pyStrip (s : String) (h : pyIn "|" s = false) :
    pyIn "|" (pyStrip s) = false := by
  cases hx : pyIn "|" (pyStrip s) with
  | false => rfl
  | true =>
      exfalso
      have hm : '|' ∈ (pyStrip s).data :=
        (infixOfB_singleton '|' (pyStrip s).data).mp hx
      have hm2 : '|' ∈ s.data := mem_of_mem_pyStrip s '|' hm
      have ht : pyIn "|" s = true := (infixOfB_singleton '|' s.data).mpr hm2
      rw [h] at ht
      exact Bool.false_ne_true ht

/-- Counterexample to claim C4 as stated: on a response with no bar
separator the code returns the reasoning string prefixed by AI, namely
the triple (10, Low, AI response format error), and not the triple
(10, Low, response format error) the claim names. -/
theorem claim_C4_counterexample :
    pyIn "|" "hello" = false ∧
    get_ai_intent_score (ClfOutcome.ok "hello") ≠
      (10, "Low", "response format error") := by
  decide

/-- Claim C4 as amended: when the classifier response contains no bar
separator, _get_ai_intent_score returns exactly the fixed degraded
triple (10, Low, AI response format error), deterministically for every
such response. -/
theorem claim_C4_format_error_triple (content : String)
    (h : pyIn "|" content = false) :
    get_ai_intent_score (ClfOutcome.ok content) =
      (10, "Low", "AI response format error") := by
  have h2 := pyIn_bar_pyStrip content h
  simp [get_ai_intent_score, h2]

/-- Witness for the amended claim C4 at a concrete malformed response. -/
theorem claim_C4_witness :
    get_ai_intent_score (ClfOutcome.ok "hello") =
      (10, "Low", "AI response format error") :=
  claim_C4_format_error_triple "hello" (by decide)

theorem fieldTruthy_of_strip_ne (s : String) (hs : pyStrip s ≠ "") :
    fieldTruthy (some s) = true := by
  have hs0 : s ≠ "" := by
    intro e
    rw [e] at hs
    exact hs rfl
  show (s != "" && pyStrip s != "") = true
  rw [bne_iff_ne.mpr hs0, bne_iff_ne.mpr hs, Bool.and_true]

/-- Claim C5: for a lead whose role is CEO and industry is B2B SaaS,
with all six profile fields present and non-blank, and an offer whose
ideal use cases contain B2B SaaS, the rule scorer returns score 50 with
exactly three reasons, ordered role criterion first, industry match
second, completeness third. -/
theorem claim_C5_ceo_exact_complete (lead : LeadD) (offer : OfferD)
    (hrole : lead.role = some "CEO")
    (hind : lead.industry = some "B2B SaaS")
    (hicp : "B2B SaaS" ∈ offer.ideal_use_cases.getD [])
    (hname : ∃ s, lead.name = some s ∧ pyStrip s ≠ "")
    (hcompany : ∃ s, lead.company = some s ∧ pyStrip s ≠ "")
    (hloc : ∃ s, lead.location = some s ∧ pyStrip s ≠ "")
    (hbio : ∃ s, lead.linkedin_bio = some s ∧ pyStrip s ≠ "") :
    calculate_rule_score lead offer =
      (50, ["Decision maker role (+20)", "Exact ICP match (+20)",
        "Complete profile (+10)"]) := by
  obtain ⟨ns, hn, hn2⟩ := hname
  obtain ⟨cs, hc, hc2⟩ := hcompany
  obtain ⟨ls, hl, hl2⟩ := hloc
  obtain ⟨bs, hb, hb2⟩ := hbio
  have hrole' : roleCriterion lead = (20, ["Decision maker role (+20)"]) := by
    have hcond : decision_makers.any (fun dm => pyIn dm (pyLower "CEO")) = true := by
      decide
    simp [roleCriterion, hrole, hcond]
  have hind' : industryCriterion lead offer = (20, ["Exact ICP match (+20)"]) := by
    have hcond : (offer.ideal_use_cases.getD []).any
        (fun use_case => pyLower "B2B SaaS" == pyLower use_case) = true :=
      List.any_eq_true.mpr ⟨"B2B SaaS", hicp, by decide⟩
    simp [industryCriterion, hind, hcond]
  have hcomp' : completenessCriterion lead = (10, ["Complete profile (+10)"]) := by
    have h1 := fieldTruthy_of_strip_ne ns hn2
    have h2 := fieldTruthy_of_strip_ne cs hc2
    have h3 := fieldTruthy_of_strip_ne ls hl2
    have h4 := fieldTruthy_of_strip_ne bs hb2
    simp [completenessCriterion, hn, hrole, hc, hind, hl, hb, h1, h2, h3, h4,
      (by decide : fieldTruthy (some "CEO") = true),
      (by decide : fieldTruthy (some "B2B SaaS") = true)]
  have hs : calculate_rule_score lead offer =
      ((roleCriterion lead).1 + (industryCriterion lead offer).1 +
        (completenessCriterion lead).1,
       (roleCriterion lead).2 ++ (industryCriterion lead offer).2 ++
        (completenessCriterion lead).2) := rfl
  rw [hs, hrole', hind', hcomp']
  rfl

/-- Witness for claim C5 at a concrete complete CEO lead. -/
theorem claim_C5_witness :
    calculate_rule_score wLeadD wOfferD =
      (50, ["Decision maker role (+20)", "Exact ICP match (+20)",
        "Complete profile (+10)"]) :=
  claim_C5_ceo_exact_complete wLeadD wOfferD rfl rfl (by decide)
    ⟨"Jane Roe", rfl, by decide⟩ ⟨"Acme", rfl, by decide⟩
    ⟨"NY", rfl, by decide⟩ ⟨"Ten years in SaaS", rfl, by decide⟩

theorem pyLower_eq_empty {u : String} (h : pyLower u = "") : u = "" := by
  have hd : u.data.map Char.toLower = ("" : String).data := congrArg String.data h
  have hd2 : u.data.map Char.toLower = ([] : List Char) := hd
  have hu : u.data = [] := List.map_eq_nil_iff.mp hd2
  cases u with
  | mk d =>
      cases hu
      rfl

/-- Claim C10: for every lead whose industry field is empty or missing
and every offer whose ideal use case list is non-empty and contains no
empty string, the rule scorer awards the adjacent-industry bonus of 10
with reason Adjacent industry (+10), because the empty lowercased
industry string is a substring of every ideal-use-case string. -/
theorem claim_C10_empty_industry_adjacent (lead : LeadD) (offer : OfferD)
    (hind : lead.industry.getD "" = "")
    (hne : offer.ideal_use_cases.getD [] ≠ [])
    (hnoempty : ∀ u ∈ offer.ideal_use_cases.getD [], u ≠ "") :
    industryCriterion lead offer = (10, ["Adjacent industry (+10)"]) ∧
    "Adjacent industry (+10)" ∈ (calculate_rule_score lead offer).2 := by
  have hlow : pyLower (lead.industry.getD "") = "" := by
    rw [hind]
    rfl
  have hexact : (offer.ideal_use_cases.getD []).any
      (fun use_case => pyLower (lead.industry.getD "") == pyLower use_case) =
        false := by
    apply List.any_eq_false.mpr
    intro u hu hbeq
    have he : pyLower (lead.industry.getD "") = pyLower u := beq_iff_eq.mp hbeq
    rw [hlow] at he
    exact hnoempty u hu (pyLower_eq_empty he.symm)
  have hadj : (offer.ideal_use_cases.getD []).any
      (fun icp => pyIn (pyLower icp) (pyLower (lead.industry.getD "")) ||
        pyIn (pyLower (lead.industry.getD "")) (pyLower icp)) = true := by
    obtain ⟨u, hu⟩ := List.exists_mem_of_ne_nil _ hne
    apply List.any_eq_true.mpr
    refine ⟨u, hu, ?_⟩
    have hin : pyIn (pyLower (lead.industry.getD "")) (pyLower u) = true := by
      rw [hlow]
      exact infixOfB_nil_left _
    rw [hin, Bool.or_true]
  have hI : industryCriterion lead offer = (10, ["Adjacent industry (+10)"]) := by
    simp [industryCriterion, hexact, hadj]
  refine ⟨hI, ?_⟩
  have hs : (calculate_rule_score lead offer).2 =
      (roleCriterion lead).2 ++ (industryCriterion lead offer).2 ++
        (completenessCriterion lead).2 := rfl
  rw [hs, hI]
  simp

/-- Witness for claim C10 at a concrete lead with empty industry. -/
theorem claim_C10_witness :
    industryCriterion { wLeadD with industry := some "" } wOfferD =
      (10, ["Adjacent industry (+10)"]) ∧
    "Adjacent industry (+10)" ∈
      (calculate_rule_score { wLeadD with industry := some "" } wOfferD).2 :=
  claim_C10_empty_industry_adjacent { wLeadD with industry := some "" } wOfferD
    rfl (by decide) (by decide)

/-- Claim C1 evidence (code bug): when the classifier call fails with a
rate-limit error, the exception is caught by the except-Exception
handler inside _get_ai_intent_score, so the pipeline runs its normal
combination path with ai_score 10 and persists min(rule_score + 10,
100) with an AI-scoring-error reasoning; the dedicated RateLimitError
fallback, which would persist min(rule_score * 2, 100) with a rule-only
tag, is never reached. At this concrete lead the rule score is 50, the
pipeline persists 60, and the fallback the claim describes would have
persisted 100. -/
theorem claim_C1_rate_limit_fallback_unreachable :
    (score_run [wLeadRec] wOfferRec true rlClf (fun _ => false)).1.map
      LeadRec.score = [some 60] ∧
    (score_run [wLeadRec] wOfferRec true rlClf (fun _ => false)).1.map
      LeadRec.reasoning =
      [some "[Rule: Decision maker role (+20), Exact ICP match (+20), Complete profile (+10)] [AI: AI scoring error: Rate limit reached]"] ∧
    (rate_limit_fallback wOfferRec wLeadRec).score = some 100 ∧
    (rate_limit_fallback wOfferRec wLeadRec).reasoning =
      some "[Rule-based only - AI rate limited] Decision maker role (+20), Exact ICP match (+20), Complete profile (+10)" ∧
    (score_run [wLeadRec] wOfferRec true rlClf (fun _ => false)).1 ≠
      [rate_limit_fallback wOfferRec wLeadRec] := by
  decide

theorem foldl_max_init (l : List Nat) (a : Nat) : a ≤ l.foldl max a := by
  induction l generalizing a with
  | nil => exact Nat.le_refl a
  | cons x xs ih => exact Nat.le_trans (Nat.le_max_left a x) (ih (max a x))

theorem le_foldl_max_of_mem (l : List Nat) (a i : Nat) :
    i ∈ l → i ≤ l.foldl max a := by
  induction l generalizing a with
  | nil =>
      intro h
      cases h
  | cons x xs ih =>
      intro h
      rcases List.mem_cons.mp h with h | h
      · subst h
        exact Nat.le_trans (Nat.le_max_right a i) (foldl_max_init xs (max a i))
      · exact ih (max a x) h

theorem foldl_max_mem (l : List Nat) (a : Nat) :
    l.foldl max a = a ∨ l.foldl max a ∈ l := by
  induction l generalizing a with
  | nil => exact Or.inl rfl
  | cons x xs ih =>
      have hstep : List.foldl max a (x :: xs) = List.foldl max (max a x) xs := rfl
      rcases ih (max a x) with h | h
      · rcases Nat.le_total a x with hax | hxa
        · refine Or.inr ?_
          rw [hstep, h, Nat.max_eq_right hax]
          exact List.mem_cons_self x xs
        · refine Or.inl ?_
          rw [hstep, h, Nat.max_eq_left hxa]
      · refine Or.inr ?_
        rw [hstep]
        exact List.mem_cons_of_mem x h

theorem sameKey_refl (l : LeadRec) : sameKey l l = true := by
  simp [sameKey]

theorem sameKey_trans {a b c : LeadRec} (h1 : sameKey a b = true)
    (h2 : sameKey b c = true) : sameKey a c = true := by
  simp only [sameKey, Bool.and_eq_true, beq_iff_eq] at h1 h2 ⊢
  exact ⟨h1.1.trans h2.1, h1.2.trans h2.2⟩

theorem sameKey_iff {m l : LeadRec} :
    sameKey m l = true ↔ m.company = l.company ∧ m.name = l.name := by
  simp [sameKey, Bool.and_eq_true, beq_iff_eq]

theorem canon_iff (base : List LeadRec) (l : LeadRec)
    (hnd : (base.map LeadRec.id).Nodup) (hl : l ∈ base) :
    (base.any (fun m => l.id == maxIdFor base m) = true) ↔
      ∀ m ∈ base, sameKey m l = true → m.id ≤ l.id := by
  constructor
  · intro h m hm hk
    obtain ⟨m0, hm0, hid0⟩ := List.any_eq_true.mp h
    have hid0' : l.id = maxIdFor base m0 := beq_iff_eq.mp hid0
    have hm0G : m0 ∈ base.filter (fun x => sameKey x m0) :=
      List.mem_filter.mpr ⟨hm0, sameKey_refl m0⟩
    have hle : m0.id ≤ maxIdFor base m0 :=
      le_foldl_max_of_mem _ 0 _ (List.mem_map_of_mem LeadRec.id hm0G)
    have hex : ∃ g ∈ base.filter (fun x => sameKey x m0),
        g.id = maxIdFor base m0 := by
      rcases foldl_max_mem ((base.filter (fun x => sameKey x m0)).map
          LeadRec.id) 0 with h0 | hmm
      · refine ⟨m0, hm0G, ?_⟩
        have h0' : maxIdFor base m0 = 0 := h0
        omega
      · obtain ⟨g, hg, hgid⟩ := List.mem_map.mp hmm
        exact ⟨g, hg, hgid⟩
    obtain ⟨g, hgG, hgid⟩ := hex
    obtain ⟨hgbase, hgkey⟩ := List.mem_filter.mp hgG
    have hgl : g = l := by
      apply List.inj_on_of_nodup_map hnd hgbase hl
      rw [hgid, ← hid0']
    have hlm0 : sameKey l m0 = true := by
      rw [← hgl]
      exact hgkey
    have hmm0 : sameKey m m0 = true := sameKey_trans hk hlm0
    have hmG : m ∈ base.filter (fun x => sameKey x m0) :=
      List.mem_filter.mpr ⟨hm, hmm0⟩
    have hmle : m.id ≤ maxIdFor base m0 :=
      le_foldl_max_of_mem _ 0 _ (List.mem_map_of_mem LeadRec.id hmG)
    rw [← hid0'] at hmle
    exact hmle
  · intro h
    apply List.any_eq_true.mpr
    refine ⟨l, hl, ?_⟩
    apply beq_iff_eq.mpr
    have hlG : l ∈ base.filter (fun x => sameKey x l) :=
      List.mem_filter.mpr ⟨hl, sameKey_refl l⟩
    have h1 : l.id ≤ maxIdFor base l :=
      le_foldl_max_of_mem _ 0 _ (List.mem_map_of_mem LeadRec.id hlG)
    have h2 : maxIdFor base l ≤ l.id := by
      rcases foldl_max_mem ((base.filter (fun x => sameKey x l)).map
          LeadRec.id) 0 with h0 | hmm
      · have h0' : maxIdFor base l = 0 := h0
        omega
      · obtain ⟨g, hg, hgid⟩ := List.mem_map.mp hmm
        obtain ⟨hgb, hgk⟩ := List.mem_filter.mp hg
        have hgle := h g hgb hgk
        have hgid' : g.id = maxIdFor base l := hgid
        omega
    omega

theorem get_unique_leads_eq (db : List LeadRec) (so : Bool) :
    get_unique_leads db so =
      (base_leads db so).filter
        (fun l => (base_leads db so).any
          (fun m => l.id == maxIdFor (base_leads db so) m)) := rfl

/-- Claim C8: canonical selection groups by the exact case-sensitive
(company, name) key and keeps, per group, only the record with the
largest id; the scored-only filter is applied before grouping, i.e. the
selection is characterized over the filtered base set; and in the
concrete two-duplicate scenarios both scoring-candidate selection and
results listing surface only the later record, while keys differing
only in case are kept apart. -/
theorem claim_C8_canonical_selection :
    (∀ (db : List LeadRec) (so : Bool) (l : LeadRec),
        ((base_leads db so).map LeadRec.id).Nodup →
        (l ∈ get_unique_leads db so ↔
          l ∈ base_leads db so ∧
          ∀ m ∈ base_leads db so,
            m.company = l.company ∧ m.name = l.name → m.id ≤ l.id)) ∧
    get_unique_leads [dupA, dupB] false = [dupB] ∧
    run_candidates [dupA, dupB] = [dupB] ∧
    get_unique_leads [dupAS, dupBS] true = [dupBS] ∧
    get_unique_leads [caseC, caseD] false = [caseC, caseD] := by
  refine ⟨?_, by decide, by decide, by decide, by decide⟩
  intro db so l hnd
  rw [get_unique_leads_eq, List.mem_filter]
  constructor
  · rintro ⟨hb, hc⟩
    refine ⟨hb, ?_⟩
    intro m hm hk
    exact (canon_iff (base_leads db so) l hnd hb).mp hc m hm (sameKey_iff.mpr hk)
  · rintro ⟨hb, h⟩
    refine ⟨hb, (canon_iff (base_leads db so) l hnd hb).mpr ?_⟩
    intro m hm hk
    exact h m hm (sameKey_iff.mp hk)

/-- Witness for claim C8: the later duplicate is selected. -/
theorem claim_C8_witness :
    dupB ∈ get_unique_leads [dupA, dupB] false :=
  (claim_C8_canonical_selection.1 [dupA, dupB] false dupB (by decide)).mpr
    (by decide)

theorem run_update_pres (db : List LeadRec) (offer : OfferRec) (hasKey : Bool)
    (clf : LeadRec → ClfOutcome) (fails : LeadRec → Bool) (x : LeadRec) :
    (run_update db offer hasKey clf fails x).id = x.id ∧
    (run_update db offer hasKey clf fails x).company = x.company ∧
    (run_update db offer hasKey clf fails x).name = x.name := by
  unfold run_update
  split
  · exact ⟨rfl, rfl, rfl⟩
  · exact ⟨rfl, rfl, rfl⟩

theorem maxIdFor_map (db : List LeadRec) (g : LeadRec → LeadRec)
    (hg : ∀ x, (g x).id = x.id ∧ (g x).company = x.company ∧
      (g x).name = x.name) (l : LeadRec) :
    maxIdFor (db.map g) (g l) = maxIdFor db l := by
  unfold maxIdFor
  rw [List.filter_map, List.map_map]
  have h1 : ((fun m => sameKey m (g l)) ∘ g) = fun m => sameKey m l := by
    funext m
    show sameKey (g m) (g l) = sameKey m l
    unfold sameKey
    rw [(hg m).2.1, (hg m).2.2, (hg l).2.1, (hg l).2.2]
  have h2 : (LeadRec.id ∘ g) = LeadRec.id := by
    funext x
    exact (hg x).1
  rw [h1, h2]

theorem canon_pred_map (db : List LeadRec) (g : LeadRec → LeadRec)
    (hg : ∀ x, (g x).id = x.id ∧ (g x).company = x.company ∧
      (g x).name = x.name) (l : LeadRec) :
    ((db.map g).any (fun m => (g l).id == maxIdFor (db.map g) m)) =
      (db.any (fun m => l.id == maxIdFor db m)) := by
  rw [List.any_map]
  have h : ((fun m => (g l).id == maxIdFor (db.map g) m) ∘ g) =
      (fun m => l.id == maxIdFor db m) := by
    funext m
    show ((g l).id == maxIdFor (db.map g) (g m)) = (l.id == maxIdFor db m)
    rw [(hg l).1, maxIdFor_map db g hg m]
  rw [h]

theorem run_update_of_ok_nil (db : List LeadRec) (offer : OfferRec)
    (hasKey : Bool) (clf : LeadRec → ClfOutcome) (fails : LeadRec → Bool)
    (h : run_ok db fails = []) (x : LeadRec) :
    run_update db offer hasKey clf fails x = x := by
  unfold run_update
  rw [h]
  rfl

theorem map_id_of_eq {α : Type} {l : List α} {f : α → α}
    (h : ∀ x ∈ l, f x = x) : l.map f = l := by
  induction l with
  | nil => rfl
  | cons a as ih =>
      show f a :: as.map f = a :: as
      rw [h a (List.mem_cons_self a as),
        ih (fun x hx => h x (List.mem_cons_of_mem a hx))]

theorem score_lead_isNone_false (hasKey : Bool) (clf : LeadRec → ClfOutcome)
    (offer : OfferRec) (l : LeadRec) :
    (score_lead hasKey clf offer l).score.isNone = false := rfl

theorem post_run_no_candidates (db : List LeadRec) (offer : OfferRec)
    (hasKey : Bool) (clf : LeadRec → ClfOutcome) :
    run_candidates (score_run db offer hasKey clf (fun _ => false)).1 = [] := by
  unfold run_candidates
  apply List.filter_eq_nil_iff.mpr
  intro l' hl'
  rw [get_unique_leads_eq] at hl'
  obtain ⟨hmem, hcanon⟩ := List.mem_filter.mp hl'
  have hmem2 : l' ∈ db.map (run_update db offer hasKey clf (fun _ => false)) :=
    hmem
  obtain ⟨l, hl, hlf⟩ := List.mem_map.mp hmem2
  intro hnone
  rcases hx : (run_ok db (fun _ => false)).any (fun c => c.id == l.id) with
    hfalse | htrue
  · -- the row was not rewritten, so it is still an unscored canonical row
    have hupd : run_update db offer hasKey clf (fun _ => false) l = l := by
      unfold run_update
      rw [hx]
      rfl
    rw [← hlf, hupd] at hnone hcanon
    -- hcanon speaks about the updated database; transport it back to db
    have hcanon2 :
        ((db.map (run_update db offer hasKey clf (fun _ => false))).any
          (fun m => (run_update db offer hasKey clf (fun _ => false) l).id ==
            maxIdFor (db.map (run_update db offer hasKey clf (fun _ => false)))
              m)) = true := by
      rw [hupd]
      exact hcanon
    rw [canon_pred_map db _ (run_update_pres db offer hasKey clf
      (fun _ => false)) l] at hcanon2
    have hlc : l ∈ run_candidates db := by
      unfold run_candidates
      apply List.mem_filter.mpr
      refine ⟨?_, hnone⟩
      rw [get_unique_leads_eq]
      exact List.mem_filter.mpr ⟨hl, hcanon2⟩
    have hlok : l ∈ run_ok db (fun _ => false) := by
      unfold run_ok
      exact List.mem_filter.mpr ⟨hlc, rfl⟩
    have hany : (run_ok db (fun _ => false)).any (fun c => c.id == l.id) =
        true :=
      List.any_eq_true.mpr ⟨l, hlok, beq_self_eq_true l.id⟩
    rw [hx] at hany
    exact Bool.false_ne_true hany
  · -- the row was rewritten by the run, so its score is set
    have hupd : run_update db offer hasKey clf (fun _ => false) l =
        score_lead hasKey clf offer l := by
      unfold run_update
      rw [hx]
      rfl
    rw [← hlf, hupd] at hnone
    rw [score_lead_isNone_false] at hnone
    exact Bool.false_ne_true hnone

/-- Claim C7: a lead whose score is already set is never re-scored:
running the pipeline a second time, with no new leads added, scores
zero leads and returns the database unchanged, whatever failure oracle
governs the second run. -/
theorem claim_C7_idempotent (db : List LeadRec) (offer : OfferRec)
    (hasKey : Bool) (clf : LeadRec → ClfOutcome) (fails2 : LeadRec → Bool) :
    score_run (score_run db offer hasKey clf (fun _ => false)).1 offer hasKey
        clf fails2 =
      ((score_run db offer hasKey clf (fun _ => false)).1, 0) := by
  have h0 := post_run_no_candidates db offer hasKey clf
  have h1 : run_ok (score_run db offer hasKey clf (fun _ => false)).1 fails2 =
      [] := by
    unfold run_ok
    rw [h0]
    rfl
  show ((score_run db offer hasKey clf (fun _ => false)).1.map
      (run_update (score_run db offer hasKey clf (fun _ => false)).1 offer
        hasKey clf fails2),
    (run_ok (score_run db offer hasKey clf (fun _ => false)).1 fails2).length) = _
  rw [h1, map_id_of_eq (fun x _ => run_update_of_ok_nil _ offer hasKey clf
    fails2 h1 x)]
  rfl

theorem run_ok_mem_db {db : List LeadRec} {fails : LeadRec → Bool}
    {c : LeadRec} (h : c ∈ run_ok db fails) :
    c ∈ db ∧ fails c = false := by
  obtain ⟨hc1, hc2⟩ := List.mem_filter.mp h
  obtain ⟨hc3, _⟩ := List.mem_filter.mp hc1
  rw [get_unique_leads_eq] at hc3
  obtain ⟨hc4, _⟩ := List.mem_filter.mp hc3
  refine ⟨hc4, ?_⟩
  cases hfc : fails c with
  | false => rfl
  | true =>
      rw [hfc] at hc2
      exact absurd hc2 (by decide)

/-- Claim C9: when processing one lead raises an unexpected failure,
that lead is left untouched (its score stays unset) while the run
continues: every failing lead keeps its original record in the updated
database, every non-failing unscored canonical lead still has its
scored record persisted, and the reported total counts exactly the
successfully processed candidates. -/
theorem claim_C9_per_lead_isolation (db : List LeadRec) (offer : OfferRec)
    (hasKey : Bool) (clf : LeadRec → ClfOutcome) (fails : LeadRec → Bool)
    (hnd : (db.map LeadRec.id).Nodup) :
    (∀ l ∈ db, fails l = true →
       l ∈ (score_run db offer hasKey clf fails).1) ∧
    (∀ l ∈ db, l ∈ get_unique_leads db false → l.score = none →
       fails l = false →
       score_lead hasKey clf offer l ∈ (score_run db offer hasKey clf fails).1) ∧
    (score_run db offer hasKey clf fails).2 = (run_ok db fails).length := by
  refine ⟨?_, ?_, rfl⟩
  · intro l hl hf
    have hcond : (run_ok db fails).any (fun c => c.id == l.id) = false := by
      cases hx : (run_ok db fails).any (fun c => c.id == l.id) with
      | false => rfl
      | true =>
          exfalso
          obtain ⟨c, hc, hcid⟩ := List.any_eq_true.mp hx
          obtain ⟨hcdb, hcf⟩ := run_ok_mem_db hc
          have hcl : c = l :=
            List.inj_on_of_nodup_map hnd hcdb hl (beq_iff_eq.mp hcid)
          rw [hcl, hf] at hcf
          exact absurd hcf (by decide)
    show l ∈ db.map (run_update db offer hasKey clf fails)
    refine List.mem_map.mpr ⟨l, hl, ?_⟩
    unfold run_update
    rw [hcond]
    rfl
  · intro l hl hul hscore hf
    have hlc : l ∈ run_candidates db := by
      unfold run_candidates
      refine List.mem_filter.mpr ⟨hul, ?_⟩
      rw [hscore]
      rfl
    have hlok : l ∈ run_ok db fails := by
      unfold run_ok
      refine List.mem_filter.mpr ⟨hlc, ?_⟩
      rw [hf]
      rfl
    have hcond : (run_ok db fails).any (fun c => c.id == l.id) = true :=
      List.any_eq_true.mpr ⟨l, hlok, beq_self_eq_true l.id⟩
    show score_lead hasKey clf offer l ∈
      db.map (run_update db offer hasKey clf fails)
    refine List.mem_map.mpr ⟨l, hl, ?_⟩
    unfold run_update
    rw [hcond]
    rfl

/-- Witness for claim C9: in a two-lead run where the first lead fails,
the first lead survives unchanged and the second is persisted scored. -/
theorem claim_C9_witness :
    (w9A ∈ (score_run [w9A, w9B] wOfferRec true okClf failsId1).1) ∧
    (score_lead true okClf wOfferRec w9B ∈
      (score_run [w9A, w9B] wOfferRec true okClf failsId1).1) := by
  have h := claim_C9_per_lead_isolation [w9A, w9B] wOfferRec true okClf
    failsId1 (by decide)
  exact ⟨h.1 w9A (by decide) (by decide),
    h.2.1 w9B (by decide) (by decide) (by decide) (by decide)⟩
